import Mathlib

/-!
Verification of the record-synchronization core of the big-map-archive-api-client
library: the reconciliation of a directory inventory against a remote
draft's linked-file inventory, the HTTP-error propagation of the remote reads,
the call sequencing of the new-version transition, and the publication-date
stamping.  Definitions follow `big_map_archive_api_client/client/api_client.py`
and `big_map_archive_api_client/client/main.py`.
-/

namespace BigMapArchive

/-- One file's identity: a name and a content checksum, as produced both by
`get_name_to_checksum_for_linked_files` (remote) and by
`get_name_to_checksum_for_files_in_upload_dir` (upload dir).  Two records are equal
iff both components are equal, which is the equality Python uses for the
dictionaries `{'name': ..., 'checksum': ...}`. -/
structure FileRecord where
  name : String
  checksum : String
deriving DecidableEq, Repr

/-- Embeds `get_missing_files` of `api_client.py`: the names of linked files
(remote) whose (name, checksum) dictionary occurs nowhere in the upload
directory listing, in order.  Python: `[f['name'] for f in linked_files if f
not in files_in_upload_dir]`. -/
def get_missing_files (linked_files files_in_upload_dir : List FileRecord) : List String :=
  (linked_files.filter (fun f => decide (f ∉ files_in_upload_dir))).map FileRecord.name

/-- Embeds `get_changed_content_files` of `api_client.py`: the names of linked
files for which the upload directory holds exactly one file with the same name
and a different checksum. -/
def get_changed_content_files (linked_files files_in_upload_dir : List FileRecord) : List String :=
  (linked_files.filter (fun file =>
    decide ((files_in_upload_dir.filter
      (fun f => decide (f.name = file.name ∧ f.checksum ≠ file.checksum))).length = 1))).map
    FileRecord.name

/-- Embeds `get_links_to_delete` of `api_client.py`: the changed-content names,
extended by the missing names when `force`, with duplicates removed
(`list(set(filenames))`). -/
def get_links_to_delete (linked_files files_in_upload_dir : List FileRecord)
    (force : Bool) : List String :=
  (get_changed_content_files linked_files files_in_upload_dir ++
    (if force then get_missing_files linked_files files_in_upload_dir else [])).dedup

/-- Embeds `get_files_to_upload` of `api_client.py`: the names of upload-directory
files whose (name, checksum) dictionary occurs nowhere among the linked files. -/
def get_files_to_upload (files_in_upload_dir linked_files : List FileRecord) : List String :=
  (files_in_upload_dir.filter (fun f => decide (f ∉ linked_files))).map FileRecord.name

theorem FileRecord.eq_iff (a b : FileRecord) :
    a = b ↔ a.name = b.name ∧ a.checksum = b.checksum := by
  cases a; cases b; simp [FileRecord.mk.injEq]

theorem mem_get_missing_files (remote loc : List FileRecord) (n : String) :
    n ∈ get_missing_files remote loc ↔
      ∃ r ∈ remote, r.name = n ∧
        ∀ l ∈ loc, ¬(r.name = l.name ∧ r.checksum = l.checksum) := by
  simp only [get_missing_files, List.mem_map, List.mem_filter, decide_eq_true_eq]
  constructor
  · rintro ⟨r, ⟨hr, hnot⟩, rfl⟩
    refine ⟨r, hr, rfl, fun l hl hc => hnot ?_⟩
    have : r = l := (FileRecord.eq_iff r l).mpr hc
    exact this ▸ hl
  · rintro ⟨r, hr, rfl, hall⟩
    refine ⟨r, ⟨hr, fun hmem => ?_⟩, rfl⟩
    exact hall r hmem ⟨rfl, rfl⟩

theorem mem_get_files_to_upload (remote loc : List FileRecord) (n : String) :
    n ∈ get_files_to_upload loc remote ↔
      ∃ l ∈ loc, l.name = n ∧
        ∀ r ∈ remote, ¬(l.name = r.name ∧ l.checksum = r.checksum) := by
  simp only [get_files_to_upload, List.mem_map, List.mem_filter, decide_eq_true_eq]
  constructor
  · rintro ⟨l, ⟨hl, hnot⟩, rfl⟩
    refine ⟨l, hl, rfl, fun r hr hc => hnot ?_⟩
    have : l = r := (FileRecord.eq_iff l r).mpr hc
    exact this ▸ hr
  · rintro ⟨l, hl, rfl, hall⟩
    refine ⟨l, ⟨hl, fun hmem => ?_⟩, rfl⟩
    exact hall l hmem ⟨rfl, rfl⟩

theorem mem_get_changed_content_files (remote loc : List FileRecord) (n : String) :
    n ∈ get_changed_content_files remote loc ↔
      ∃ r ∈ remote, r.name = n ∧
        (loc.filter (fun l => decide (l.name = n ∧ l.checksum ≠ r.checksum))).length = 1 := by
  simp only [get_changed_content_files, List.mem_map, List.mem_filter, decide_eq_true_eq]
  constructor
  · rintro ⟨r, ⟨hr, hlen⟩, rfl⟩
    exact ⟨r, hr, rfl, hlen⟩
  · rintro ⟨r, hr, rfl, hlen⟩
    exact ⟨r, ⟨hr, hlen⟩, rfl⟩

theorem mem_get_links_to_delete (remote loc : List FileRecord) (force : Bool) (n : String) :
    n ∈ get_links_to_delete remote loc force ↔
      n ∈ get_changed_content_files remote loc ∨
        (force = true ∧ n ∈ get_missing_files remote loc) := by
  simp only [get_links_to_delete, List.mem_dedup, List.mem_append]
  cases force <;> simp

theorem name_from_remote_of_mem_links_to_delete (remote loc : List FileRecord) (force : Bool)
    (n : String) (h : n ∈ get_links_to_delete remote loc force) :
    ∃ r ∈ remote, r.name = n := by
  rcases (mem_get_links_to_delete remote loc force n).mp h with hch | ⟨-, hmiss⟩
  · obtain ⟨r, hr, hrn, -⟩ := (mem_get_changed_content_files remote loc n).mp hch
    exact ⟨r, hr, hrn⟩
  · obtain ⟨r, hr, hrn, -⟩ := (mem_get_missing_files remote loc n).mp hmiss
    exact ⟨r, hr, hrn⟩

/-- C1: for every remote inventory, local inventory and force flag,
`get_links_to_delete` is duplicate-free and holds exactly the union of the
changed-content names with the missing names when `force` is true, and with
nothing instead when `force` is false; a missing name is the name of a remote
entry whose (name, checksum) pair equals no (name, checksum) pair of the local
inventory, so a remote entry whose name recurs locally with another checksum is
also missing. -/
theorem links_to_delete_is_union (remote loc : List FileRecord) (force : Bool) :
    (get_links_to_delete remote loc force).Nodup
    ∧ (∀ n, n ∈ get_links_to_delete remote loc force ↔
        n ∈ get_changed_content_files remote loc
          ∨ (force = true ∧ n ∈ get_missing_files remote loc))
    ∧ (∀ n, n ∈ get_missing_files remote loc ↔
        ∃ r ∈ remote, r.name = n ∧
          ∀ l ∈ loc, ¬(r.name = l.name ∧ r.checksum = l.checksum)) := by
  refine ⟨?_, mem_get_links_to_delete remote loc force, mem_get_missing_files remote loc⟩
  unfold get_links_to_delete
  exact List.nodup_dedup _

/-- C2: `get_files_to_upload` holds exactly the names of local entries whose
(name, checksum) pair equals no remote pair; when the two inventories share no
name, the upload list is all local names and the deletion set is the missing
names when forced and empty otherwise. -/
theorem files_to_upload_exact (remote loc : List FileRecord) (force : Bool) :
    (∀ n, n ∈ get_files_to_upload loc remote ↔
        ∃ l ∈ loc, l.name = n ∧
          ∀ r ∈ remote, ¬(l.name = r.name ∧ l.checksum = r.checksum))
    ∧ ((∀ r ∈ remote, ∀ l ∈ loc, r.name ≠ l.name) →
        get_files_to_upload loc remote = loc.map FileRecord.name
        ∧ ∀ n, n ∈ get_links_to_delete remote loc force ↔
            force = true ∧ n ∈ get_missing_files remote loc) := by
  refine ⟨mem_get_files_to_upload remote loc, fun hdisj => ⟨?_, fun n => ?_⟩⟩
  · unfold get_files_to_upload
    have hall : loc.filter (fun f => decide (f ∉ remote)) = loc := by
      rw [List.filter_eq_self]
      intro f hf
      simp only [decide_eq_true_eq]
      intro hmem
      exact hdisj f hmem f hf rfl
    rw [hall]
  · rw [mem_get_links_to_delete]
    constructor
    · rintro (hch | h)
      · exfalso
        obtain ⟨r, hr, hrn, hlen⟩ := (mem_get_changed_content_files remote loc n).mp hch
        obtain ⟨a, ha⟩ := List.length_eq_one.mp hlen
        have hamem : a ∈ loc.filter
            (fun l => decide (l.name = n ∧ l.checksum ≠ r.checksum)) := by
          rw [ha]; exact List.mem_singleton_self a
        rw [List.mem_filter, decide_eq_true_eq] at hamem
        exact hdisj r hr a hamem.1 (hrn.trans hamem.2.1.symm)
      · exact h
    · exact Or.inr

/-- C3 counterexample: with remote inventory [(a, 1)] and local inventory
[(a, 2)], the name a lies in both `get_links_to_delete` (even without force)
and `get_files_to_upload`, so the two result sets are not disjoint in
general. -/
theorem to_delete_to_upload_overlap :
    ("a" ∈ get_links_to_delete [⟨"a", "1"⟩] [⟨"a", "2"⟩] false)
    ∧ ("a" ∈ get_files_to_upload [⟨"a", "2"⟩] [⟨"a", "1"⟩]) := by decide

/-- C3 amended: `get_links_to_delete` and `get_files_to_upload` are disjoint
whenever the remote and local inventories share no filename; a name common to
both results (such as a changed-content name, which is deleted and re-uploaded)
must occur in both inventories. -/
theorem to_delete_disjoint_to_upload_of_disjoint_names (remote loc : List FileRecord)
    (force : Bool) (h : ∀ r ∈ remote, ∀ l ∈ loc, r.name ≠ l.name) :
    ∀ n, n ∈ get_links_to_delete remote loc force → n ∉ get_files_to_upload loc remote := by
  intro n hdel hup
  obtain ⟨r, hr, hrn⟩ := name_from_remote_of_mem_links_to_delete remote loc force n hdel
  obtain ⟨l, hl, hln, -⟩ := (mem_get_files_to_upload remote loc n).mp hup
  exact h r hr l hl (hrn.trans hln.symm)

/-- C3 witness: concrete disjoint-name inventories on which the amended
disjointness theorem applies. -/
theorem to_delete_disjoint_witness :
    ("b") ∉ get_files_to_upload [(⟨"a", "2"⟩ : FileRecord)] [⟨"b", "1"⟩] :=
  to_delete_disjoint_to_upload_of_disjoint_names [⟨"b", "1"⟩] [⟨"a", "2"⟩] true
    (by decide) ("b") (by decide)

/-- C4: with remote inventory [(a, 1)] and local inventory [(a, 2)], for both
values of force the deletion list is [a] and the upload list is [a]: a link
whose unique same-named local file changed content is always deleted and
re-uploaded, independently of force. -/
theorem p3_changed_content_always_resynced :
    get_links_to_delete [⟨"a", "1"⟩] [⟨"a", "2"⟩] true = [("a")]
    ∧ get_links_to_delete [⟨"a", "1"⟩] [⟨"a", "2"⟩] false = [("a")]
    ∧ get_files_to_upload [⟨"a", "2"⟩] [⟨"a", "1"⟩] = [("a")] := by decide

/-- C5: a name lies in `get_changed_content_files` exactly when some remote
entry bears it and exactly one local entry has that name with a different
checksum; with two or more such local entries the name is excluded (the
function stays total, nothing is raised), as on remote [(a, 1)] and local
[(a, 2), (a, 3)], where a is excluded yet still enters the forced deletion set
through the missing files. -/
theorem changed_content_exactly_one_candidate (remote loc : List FileRecord) :
    (∀ n, n ∈ get_changed_content_files remote loc ↔
        ∃ r ∈ remote, r.name = n ∧
          (loc.filter (fun l => decide (l.name = n ∧ l.checksum ≠ r.checksum))).length = 1)
    ∧ get_changed_content_files [⟨"a", "1"⟩] [⟨"a", "2"⟩, ⟨"a", "3"⟩] = []
    ∧ get_links_to_delete [⟨"a", "1"⟩] [⟨"a", "2"⟩, ⟨"a", "3"⟩] true = [("a")] :=
  ⟨mem_get_changed_content_files remote loc, by decide, by decide⟩

/-- C6: reconciling a remote inventory that equals the local inventory as a set
of (name, checksum) pairs (the local names being unique, per the inventory
invariant) yields an empty deletion list and an empty upload list for both
values of force. -/
theorem p1_idempotent_sync (remote loc : List FileRecord) (force : Bool)
    (hnodup : (loc.map FileRecord.name).Nodup)
    (heq : ∀ f : FileRecord, f ∈ remote ↔ f ∈ loc) :
    get_links_to_delete remote loc force = [] ∧ get_files_to_upload loc remote = [] := by
  have hinj : ∀ x ∈ loc, ∀ y ∈ loc, x.name = y.name → x = y :=
    fun _ hx _ hy hxy => List.inj_on_of_nodup_map hnodup hx hy hxy
  have hchanged : get_changed_content_files remote loc = [] := by
    unfold get_changed_content_files
    rw [List.map_eq_nil_iff, List.filter_eq_nil_iff]
    intro r hr
    simp only [decide_eq_true_eq]
    intro hlen
    have hfil : loc.filter (fun l => decide (l.name = r.name ∧ l.checksum ≠ r.checksum)) = [] := by
      rw [List.filter_eq_nil_iff]
      intro l hl
      simp only [decide_eq_true_eq]
      rintro ⟨hname, hck⟩
      exact hck (congrArg FileRecord.checksum (hinj l hl r ((heq r).mp hr) hname))
    rw [hfil] at hlen
    simp at hlen
  have hmissing : get_missing_files remote loc = [] := by
    unfold get_missing_files
    rw [List.map_eq_nil_iff, List.filter_eq_nil_iff]
    intro r hr
    simp only [decide_eq_true_eq, not_not]
    exact (heq r).mp hr
  have hupload : get_files_to_upload loc remote = [] := by
    unfold get_files_to_upload
    rw [List.map_eq_nil_iff, List.filter_eq_nil_iff]
    intro l hl
    simp only [decide_eq_true_eq, not_not]
    exact (heq l).mpr hl
  refine ⟨?_, hupload⟩
  unfold get_links_to_delete
  rw [hchanged, hmissing]
  cases force <;> simp

/-- C6 witness: equal singleton inventories reconcile to empty results. -/
theorem p1_idempotent_sync_witness :
    get_links_to_delete [(⟨"a", "1"⟩ : FileRecord)] [⟨"a", "1"⟩] true = []
    ∧ get_files_to_upload [(⟨"a", "1"⟩ : FileRecord)] [⟨"a", "1"⟩] = [] :=
  p1_idempotent_sync [⟨"a", "1"⟩] [⟨"a", "1"⟩] true (by decide) (fun _ => Iff.rfl)

/-- C10: when local names are unique, every changed-content name is also a
missing name (its changed checksum makes the remote pair match no local pair),
so with force the deletion set is exactly the missing-name set. -/
theorem changed_subset_missing_of_unique_names (remote loc : List FileRecord)
    (hnodup : (loc.map FileRecord.name).Nodup) :
    (∀ n, n ∈ get_changed_content_files remote loc → n ∈ get_missing_files remote loc)
    ∧ (∀ n, n ∈ get_links_to_delete remote loc true ↔ n ∈ get_missing_files remote loc) := by
  have hinj : ∀ x ∈ loc, ∀ y ∈ loc, x.name = y.name → x = y :=
    fun _ hx _ hy hxy => List.inj_on_of_nodup_map hnodup hx hy hxy
  have hsub : ∀ n, n ∈ get_changed_content_files remote loc →
      n ∈ get_missing_files remote loc := by
    intro n hch
    obtain ⟨r, hr, hrn, hlen⟩ := (mem_get_changed_content_files remote loc n).mp hch
    obtain ⟨a, ha⟩ := List.length_eq_one.mp hlen
    have hamem : a ∈ loc.filter (fun l => decide (l.name = n ∧ l.checksum ≠ r.checksum)) := by
      rw [ha]; exact List.mem_singleton_self a
    rw [List.mem_filter, decide_eq_true_eq] at hamem
    obtain ⟨haloc, haname, hack⟩ := hamem
    rw [mem_get_missing_files]
    refine ⟨r, hr, hrn, ?_⟩
    rintro l hl ⟨hname, hck⟩
    have hla : l = a := hinj l hl a haloc (by rw [← hname, hrn, haname])
    apply hack
    rw [← hla]
    exact hck.symm
  refine ⟨hsub, fun n => ?_⟩
  rw [mem_get_links_to_delete]
  constructor
  · rintro (hch | ⟨-, hmiss⟩)
    · exact hsub n hch
    · exact hmiss
  · exact fun h => Or.inr ⟨rfl, h⟩

/-- C10 witness: on remote [(a, 1)] and local [(a, 2)] the forced deletion set
and the missing-name set agree at a. -/
theorem changed_subset_missing_witness :
    (("a") ∈ get_links_to_delete [(⟨"a", "1"⟩ : FileRecord)] [⟨"a", "2"⟩] true ↔
      ("a") ∈ get_missing_files [(⟨"a", "1"⟩ : FileRecord)] [⟨"a", "2"⟩]) :=
  (changed_subset_missing_of_unique_names [⟨"a", "1"⟩] [⟨"a", "2"⟩] (by decide)).2 ("a")

/-- C2 witness: with remote [(b, 2)] and local [(a, 1)] (no shared name) the
upload list is all local names. -/
theorem files_to_upload_exact_witness :
    get_files_to_upload [(⟨"a", "1"⟩ : FileRecord)] [⟨"b", "2"⟩] =
      List.map FileRecord.name [⟨"a", "1"⟩] :=
  ((files_to_upload_exact [⟨"b", "2"⟩] [⟨"a", "1"⟩] true).2 (by decide)).1

/-- One entry of the listing returned by the draft-files endpoint, with the
fields read by `get_name_to_checksum_for_linked_files`: `key` and
`checksum`. -/
structure FileEntry where
  key : String
  checksum : String
deriving DecidableEq, Repr

/-- An HTTP response of the draft-files endpoint: a status code and the parsed
`entries` payload. -/
structure Response where
  status : Nat
  entries : List FileEntry
deriving DecidableEq, Repr

namespace Client

/-- Modelled from the spec: the HTTP connection layer (`RestAPIConnection` and
the exception raising performed by `response.raise_for_status()`) is not among
the sources; per the spec every remote operation communicates failure through
an HTTP-status-derived error and the core treats any non-2xx status as fatal.
The result is the response on a 2xx status and the status code as the error
otherwise. -/
def raise_for_status (r : Response) : Except Nat Response :=
  if 200 ≤ r.status ∧ r.status < 300 then Except.ok r else Except.error r.status

/-- Embeds `get_files` of `api_client.py`: the remote read of the draft-files
listing, raising on a failed request. -/
def get_files (resp : Response) : Except Nat (List FileEntry) :=
  (raise_for_status resp).map Response.entries

/-- Embeds `get_name_to_checksum_for_linked_files` of `api_client.py`: reads
the listing and turns each entry into a name/checksum record. -/
def get_name_to_checksum_for_linked_files (resp : Response) :
    Except Nat (List FileRecord) := do
  let entries ← get_files resp
  pure (entries.map (fun e => ⟨e.key, e.checksum⟩))

/-- Embeds the effectful `get_missing_files` of `api_client.py`. -/
def get_missing_files (resp : Response) (files_in_upload_dir : List FileRecord) :
    Except Nat (List String) := do
  let linked_files ← get_name_to_checksum_for_linked_files resp
  pure (BigMapArchive.get_missing_files linked_files files_in_upload_dir)

/-- Embeds the effectful `get_changed_content_files` of `api_client.py`. -/
def get_changed_content_files (resp : Response) (files_in_upload_dir : List FileRecord) :
    Except Nat (List String) := do
  let linked_files ← get_name_to_checksum_for_linked_files resp
  pure (BigMapArchive.get_changed_content_files linked_files files_in_upload_dir)

/-- Embeds the effectful `get_links_to_delete` of `api_client.py`: its two
remote reads hit the same endpoint of the same draft, so both see `resp`. -/
def get_links_to_delete (resp : Response) (files_in_upload_dir : List FileRecord)
    (force : Bool) : Except Nat (List String) := do
  let filenames ← get_changed_content_files resp files_in_upload_dir
  let more ← if force then get_missing_files resp files_in_upload_dir
             else pure []
  pure ((filenames ++ more).dedup)

/-- Embeds the effectful `get_files_to_upload` of `api_client.py`. -/
def get_files_to_upload (resp : Response) (files_in_upload_dir : List FileRecord) :
    Except Nat (List String) := do
  let linked_files ← get_name_to_checksum_for_linked_files resp
  pure (BigMapArchive.get_files_to_upload files_in_upload_dir linked_files)

end Client

/-- C7: the remote read errors exactly when the response status is not a 2xx
success status, and no derived operation catches or retries:
`get_name_to_checksum_for_linked_files`, `get_missing_files`,
`get_changed_content_files`, `get_links_to_delete` and `get_files_to_upload`
all return the underlying read's error unchanged. -/
theorem http_error_propagation (resp : Response) (loc : List FileRecord) (force : Bool) :
    (Client.get_files resp = Except.error resp.status ↔
      ¬(200 ≤ resp.status ∧ resp.status < 300))
    ∧ (∀ e, Client.get_files resp = Except.error e →
        Client.get_name_to_checksum_for_linked_files resp = Except.error e
        ∧ Client.get_missing_files resp loc = Except.error e
        ∧ Client.get_changed_content_files resp loc = Except.error e
        ∧ Client.get_links_to_delete resp loc force = Except.error e
        ∧ Client.get_files_to_upload resp loc = Except.error e) := by
  constructor
  · unfold Client.get_files Client.raise_for_status
    by_cases h : 200 ≤ resp.status ∧ resp.status < 300
    · simp [h, Except.map]
    · simp [h, Except.map]
  · intro e he
    have hname : Client.get_name_to_checksum_for_linked_files resp = Except.error e := by
      unfold Client.get_name_to_checksum_for_linked_files
      rw [he]; rfl
    have hchanged : Client.get_changed_content_files resp loc = Except.error e := by
      unfold Client.get_changed_content_files
      rw [hname]; rfl
    refine ⟨hname, ?_, hchanged, ?_, ?_⟩
    · unfold Client.get_missing_files
      rw [hname]; rfl
    · unfold Client.get_links_to_delete
      rw [hchanged]; rfl
    · unfold Client.get_files_to_upload
      rw [hname]; rfl

/-- C7 witness: a 404 response makes the read and, through it, the deletion-set
computation fail with the same error 404. -/
theorem http_error_propagation_witness :
    Client.get_files ⟨404, []⟩ = Except.error 404
    ∧ Client.get_links_to_delete ⟨404, []⟩ [] true = Except.error 404 := by
  have h := http_error_propagation ⟨404, []⟩ [] true
  have h404 : Client.get_files ⟨404, []⟩ = Except.error 404 := h.1.mpr (by decide)
  exact ⟨h404, (h.2 404 h404).2.2.2.1⟩

/-- A remote API call of the client, as recorded for sequencing the
new-version transition. -/
inductive Event where
  | postVersions (record_id : String)
  | getDraft (record_id : String)
  | putDraft (record_id : String)
  | getFiles (record_id : String)
  | deleteFilename (record_id : String) (filename : String)
  | postFileImport (record_id : String)
  | postFiles (record_id : String) (filenames : List String)
  | putContent (record_id : String) (filename : String)
  | postCommit (record_id : String) (filename : String)
  | postPublish (record_id : String)
deriving DecidableEq, Repr

namespace Trace

/-- Remote calls of `update_metadata`: read the draft, write the changed
metadata back. -/
def update_metadata (record_id : String) : List Event :=
  [Event.getDraft record_id, Event.putDraft record_id]

/-- Remote calls of `get_links`: one read of the files listing. -/
def get_links (record_id : String) : List Event :=
  [Event.getFiles record_id]

/-- Remote calls of `delete_links`: one link deletion per filename, in order. -/
def delete_links (record_id : String) (filenames : List String) : List Event :=
  filenames.map (Event.deleteFilename record_id)

/-- Remote calls of `get_links_to_delete`: the changed-content computation
reads the files listing once and, when `force` is set, the missing-files
computation reads it again. -/
def get_links_to_delete (record_id : String) (force : Bool) : List Event :=
  [Event.getFiles record_id] ++ (if force then [Event.getFiles record_id] else [])

/-- Remote calls of `get_files_to_upload`: one read of the files listing. -/
def get_files_to_upload (record_id : String) : List Event :=
  [Event.getFiles record_id]

/-- Remote calls of `upload_files`: one batch link registration, then per file
a content upload followed by a commit. -/
def upload_files (record_id : String) (filenames : List String) : List Event :=
  [Event.postFiles record_id filenames] ++
    (filenames.map (fun filename =>
      [Event.putContent record_id filename, Event.postCommit record_id filename])).flatten

/-- Remote calls of `insert_publication_date`: read the draft, write it back
with the stamped date. -/
def insert_publication_date (record_id : String) : List Event :=
  [Event.getDraft record_id, Event.putDraft record_id]

/-- Embeds the new-version branch of `update_a_published_record` of `main.py`,
the data produced by the remote reads (the id of the new draft, the links
found on it, the computed deletion set, the computed upload set) standing as
parameters: the remote calls it makes, in program order. -/
def update_a_published_record (record_id new_record_id : String)
    (current_links to_delete to_upload : List String)
    (force publish : Bool) : List Event :=
  [Event.postVersions record_id]
    ++ update_metadata new_record_id
    ++ get_links new_record_id
    ++ delete_links new_record_id current_links
    ++ [Event.postFileImport new_record_id]
    ++ get_links_to_delete new_record_id force
    ++ delete_links new_record_id to_delete
    ++ get_files_to_upload new_record_id
    ++ upload_files new_record_id to_upload
    ++ (if publish then
          insert_publication_date new_record_id ++ [Event.postPublish new_record_id]
        else [])

end Trace

/-- C8: in the new-version transition the remote calls come in the claimed
order — create the new-version draft, update its metadata, delete the links
found on the draft then bulk-import the links of the source published version,
delete the computed deletion set, upload the upload set (one batch link
registration then, per file, a content upload followed by a commit) — and the
publish calls, when requested, come only after all of that: the publishing
trace is the non-publishing trace followed by the date stamping and the
publish call. -/
theorem new_version_call_order (record_id new_record_id : String)
    (current_links to_delete to_upload : List String) (force publish : Bool) :
    Trace.update_a_published_record record_id new_record_id current_links to_delete
        to_upload force publish =
      [Event.postVersions record_id]
        ++ [Event.getDraft new_record_id, Event.putDraft new_record_id]
        ++ [Event.getFiles new_record_id]
        ++ current_links.map (Event.deleteFilename new_record_id)
        ++ [Event.postFileImport new_record_id]
        ++ ([Event.getFiles new_record_id]
            ++ if force then [Event.getFiles new_record_id] else [])
        ++ to_delete.map (Event.deleteFilename new_record_id)
        ++ [Event.getFiles new_record_id]
        ++ ([Event.postFiles new_record_id to_upload]
            ++ (to_upload.map (fun filename =>
              [Event.putContent new_record_id filename,
                Event.postCommit new_record_id filename])).flatten)
        ++ (if publish then
              [Event.getDraft new_record_id, Event.putDraft new_record_id,
                Event.postPublish new_record_id]
            else [])
    ∧ Trace.update_a_published_record record_id new_record_id current_links to_delete
        to_upload force true =
      Trace.update_a_published_record record_id new_record_id current_links to_delete
          to_upload force false
        ++ [Event.getDraft new_record_id, Event.putDraft new_record_id,
            Event.postPublish new_record_id] := by
  constructor
  · rfl
  · simp [Trace.update_a_published_record, Trace.update_metadata, Trace.get_links,
      Trace.delete_links, Trace.get_links_to_delete, Trace.get_files_to_upload,
      Trace.upload_files, Trace.insert_publication_date, List.append_assoc]

/-- Python dict assignment `d[k] = v` on a JSON object rendered as a key-value
list: replace the value when the key is present, append the pair otherwise. -/
def dict_set (d : List (String × String)) (k v : String) : List (String × String) :=
  if d.any (fun p => decide (p.1 = k)) then
    d.map (fun p => if p.1 = k then (k, v) else p)
  else d ++ [(k, v)]

/-- Python dict lookup `d[k]` on a JSON object rendered as a key-value list. -/
def dict_get (d : List (String × String)) (k : String) : Option String :=
  (d.find? (fun p => decide (p.1 = k))).map Prod.snd

/-- A draft's JSON as read by `get_draft` and written back whole by
`put_draft`: the `metadata` object and the remaining top-level fields. -/
structure Draft where
  metadata : List (String × String)
  rest : List (String × String)
deriving DecidableEq, Repr

/-- Embeds `insert_publication_date` of `api_client.py` as the transformer it
applies to the stored draft: read the draft, set
`metadata['publication_date']` to today's date, write the whole draft back. -/
def insert_publication_date (today : String) (draft : Draft) : Draft :=
  Draft.mk (dict_set draft.metadata ("publication_date") today) draft.rest

theorem find?_set_same (k v : String) (d : List (String × String))
    (h : d.any (fun p => decide (p.1 = k))) :
    (d.map (fun p => if p.1 = k then (k, v) else p)).find? (fun p => decide (p.1 = k))
      = some (k, v) := by
  induction d with
  | nil => simp at h
  | cons p t ih =>
    rw [List.map_cons]
    by_cases hp : p.1 = k
    · rw [if_pos hp]
      exact List.find?_cons_of_pos _ (by simp)
    · rw [if_neg hp, List.find?_cons_of_neg _ (by simp [hp])]
      apply ih
      simp only [List.any_cons, Bool.or_eq_true] at h
      rcases h with h | h
      · exact absurd (of_decide_eq_true h) hp
      · exact h

theorem find?_append_absent (k v : String) (d : List (String × String))
    (h : ¬d.any (fun p => decide (p.1 = k))) :
    (d ++ [(k, v)]).find? (fun p => decide (p.1 = k)) = some (k, v) := by
  have hnone : d.find? (fun p => decide (p.1 = k)) = none := by
    rw [List.find?_eq_none]
    intro x hx
    simp only [Bool.not_eq_true, decide_eq_false_iff_not]
    intro hxk
    exact h (List.any_eq_true.mpr ⟨x, hx, by simp [hxk]⟩)
  rw [List.find?_append, hnone, List.find?_cons_of_pos _ (by simp)]
  rfl

theorem dict_get_dict_set_same (d : List (String × String)) (k v : String) :
    dict_get (dict_set d k v) k = some v := by
  unfold dict_set dict_get
  by_cases h : d.any (fun p => decide (p.1 = k))
  · rw [if_pos h, find?_set_same k v d h]
    rfl
  · rw [if_neg h, find?_append_absent k v d h]
    rfl

theorem find?_set_other (k v q : String) (hq : q ≠ k) (d : List (String × String)) :
    (d.map (fun p => if p.1 = k then (k, v) else p)).find? (fun p => decide (p.1 = q))
      = d.find? (fun p => decide (p.1 = q)) := by
  have hkq : ¬((k : String) = q) := fun e => hq e.symm
  induction d with
  | nil => rfl
  | cons p t ih =>
    rw [List.map_cons]
    by_cases hp : p.1 = k
    · have hpq : ¬(p.1 = q) := by rw [hp]; exact hkq
      rw [if_pos hp, List.find?_cons_of_neg _ (by simp [hkq]),
        List.find?_cons_of_neg _ (by simp [hpq])]
      exact ih
    · by_cases hpq : p.1 = q
      · rw [if_neg hp, List.find?_cons_of_pos _ (by simp [hpq]),
          List.find?_cons_of_pos _ (by simp [hpq])]
      · rw [if_neg hp, List.find?_cons_of_neg _ (by simp [hpq]),
          List.find?_cons_of_neg _ (by simp [hpq])]
        exact ih

theorem find?_append_other (k v q : String) (hq : q ≠ k) (d : List (String × String)) :
    (d ++ [(k, v)]).find? (fun p => decide (p.1 = q))
      = d.find? (fun p => decide (p.1 = q)) := by
  have hkq : ¬((k : String) = q) := fun e => hq e.symm
  rw [List.find?_append, List.find?_cons_of_neg _ (by simp [hkq])]
  simp

theorem dict_get_dict_set_other (d : List (String × String)) (k v q : String)
    (hq : q ≠ k) : dict_get (dict_set d k v) q = dict_get d q := by
  unfold dict_set dict_get
  by_cases h : d.any (fun p => decide (p.1 = k))
  · rw [if_pos h, find?_set_other k v q hq d]
  · rw [if_neg h, find?_append_other k v q hq d]

theorem dict_set_idem (d : List (String × String)) (k v : String) :
    dict_set (dict_set d k v) k v = dict_set d k v := by
  by_cases h : d.any (fun p => decide (p.1 = k))
  · have hd : dict_set d k v = d.map (fun p => if p.1 = k then (k, v) else p) := by
      unfold dict_set
      rw [if_pos h]
    have hcomp : ((fun p : String × String => decide (p.1 = k)) ∘
        (fun p : String × String => if p.1 = k then (k, v) else p)) =
        fun p : String × String => decide (p.1 = k) := by
      funext p
      by_cases hp : p.1 = k <;> simp [Function.comp, hp]
    have hany : (d.map (fun p => if p.1 = k then (k, v) else p)).any
        (fun p => decide (p.1 = k)) = true := by
      rw [List.any_map, hcomp]
      exact h
    rw [hd]
    unfold dict_set
    rw [if_pos hany, List.map_map]
    refine List.map_congr_left ?_
    intro p hp
    by_cases hpk : p.1 = k <;> simp [Function.comp, hpk]
  · have hd : dict_set d k v = d ++ [(k, v)] := by
      unfold dict_set
      rw [if_neg h]
    have hall : ∀ p ∈ d, ¬p.1 = k := by
      intro p hp hk
      exact h (List.any_eq_true.mpr ⟨p, hp, by simp [hk]⟩)
    have hany : (d ++ [(k, v)]).any (fun p => decide (p.1 = k)) = true := by
      simp
    rw [hd]
    unfold dict_set
    rw [if_pos hany, List.map_append]
    have h1 : d.map (fun p => if p.1 = k then (k, v) else p) = d := by
      calc d.map (fun p => if p.1 = k then (k, v) else p)
          = d.map (fun p => p) := List.map_congr_left (fun p hp => if_neg (hall p hp))
        _ = d := List.map_id' d
    have h2 : ([((k : String), v)]).map (fun p => if p.1 = k then (k, v) else p)
        = [(k, v)] := by simp
    rw [h1, h2]

/-- C9: `insert_publication_date` reads the draft, sets the metadata field
`publication_date` to the given current date, and writes the draft back with
every other metadata field and every non-metadata field unchanged; running it
twice on the same day stores the same draft as running it once. -/
theorem insert_publication_date_spec (today : String) (d : Draft) :
    dict_get (insert_publication_date today d).metadata ("publication_date") = some today
    ∧ (∀ k, k ≠ ("publication_date") →
        dict_get (insert_publication_date today d).metadata k = dict_get d.metadata k)
    ∧ (insert_publication_date today d).rest = d.rest
    ∧ insert_publication_date today (insert_publication_date today d) =
        insert_publication_date today d := by
  refine ⟨dict_get_dict_set_same d.metadata _ today, ?_, rfl, ?_⟩
  · intro k hk
    exact dict_get_dict_set_other d.metadata _ today k hk
  · unfold insert_publication_date
    simp only [Draft.mk.injEq]
    exact ⟨dict_set_idem d.metadata _ today, trivial⟩

/-- C9 witness: on a concrete draft the date is stamped, an unrelated metadata
field keeps its value, and the second stamping with the same date changes
nothing. -/
theorem insert_publication_date_witness :
    dict_get (insert_publication_date ("2026-10-12")
        (Draft.mk [(("title"), ("t"))] [(("id"), ("x"))])).metadata
      ("publication_date") = some ("2026-10-12")
    ∧ dict_get (insert_publication_date ("2026-10-12")
        (Draft.mk [(("title"), ("t"))] [(("id"), ("x"))])).metadata
      ("title") = dict_get [(("title"), ("t"))] ("title")
    ∧ insert_publication_date ("2026-10-12") (insert_publication_date ("2026-10-12")
        (Draft.mk [(("title"), ("t"))] [(("id"), ("x"))])) =
      insert_publication_date ("2026-10-12") (Draft.mk [(("title"), ("t"))] [(("id"), ("x"))]) := by
  have h := insert_publication_date_spec ("2026-10-12")
    (Draft.mk [(("title"), ("t"))] [(("id"), ("x"))])
  exact ⟨h.1, h.2.1 ("title") (by decide), h.2.2.2⟩

end BigMapArchive
